import Mathlib

/-!
Shallow embedding of the SHLD governance contract (src/src/lib.rs).

Collections from near_sdk are modelled as association lists / lists:
LookupMap and UnorderedMap as `List (key × value)` with functional lookup,
in-place replacement on existing keys and append on fresh keys (matching
the insertion-ordered iteration of a store map that never sees removals),
and UnorderedSet as a duplicate-free `List`.  NearToken amounts are Nats
counting yoctoNEAR with the saturating u128 addition of the source.
Panics raised by require! / expect / panic_str abort the transaction with
no state change; they are modelled as `Except.error` with the error kind
named for the corresponding failure taxonomy entry.
-/

/-- Association list lookup, modelling LookupMap.get / UnorderedMap.get. -/
def mapLookup {κ ν : Type} [DecidableEq κ] : List (κ × ν) → κ → Option ν
  | [], _ => none
  | (k', v) :: rest, k => if k' = k then some v else mapLookup rest k

/-- Association list insert: replace in place on an existing key, append on a
fresh one, modelling LookupMap.insert / UnorderedMap.insert / get_mut. -/
def mapInsert {κ ν : Type} [DecidableEq κ] : List (κ × ν) → κ → ν → List (κ × ν)
  | [], k, v => [(k, v)]
  | (k', v') :: rest, k, v =>
      if k' = k then (k, v) :: rest else (k', v') :: mapInsert rest k v

/-- Association list removal of the entry for a key, modelling LookupMap.remove. -/
def mapRemove {κ ν : Type} [DecidableEq κ] : List (κ × ν) → κ → List (κ × ν)
  | [], _ => []
  | (k', v') :: rest, k => if k' = k then rest else (k', v') :: mapRemove rest k

/-- Set insert, modelling UnorderedSet.insert (no duplicates). -/
def setInsert {κ : Type} [DecidableEq κ] (l : List κ) (a : κ) : List κ :=
  if a ∈ l then l else l ++ [a]

/-- Set removal, modelling UnorderedSet.remove. -/
def setRemove {κ : Type} [DecidableEq κ] : List κ → κ → List κ
  | [], _ => []
  | b :: rest, a => if b = a then rest else b :: setRemove rest a

abbrev AccountId := String

/-- TokenMetadata struct of the source (all fields). -/
structure TokenMetadata where
  ticker_title : String
  avatar_name : Option String
  profile_description : Option String
  governance_role : String
  profile_image_url : Option String
  cooperative_id : String
  did : Option String
  verification_status : String
  minting_timestamp : Nat
  nft_number : Nat
  minting_round : Nat
  minting_order_in_round : Nat
  unique_hash : String
  member_titles : List String
deriving DecidableEq, Repr

/-- Token struct of the source. -/
structure Token where
  owner_id : AccountId
  metadata : TokenMetadata
deriving DecidableEq, Repr

inductive ProposalStatus where
  | Active
  | Passed
  | Rejected
deriving DecidableEq, Repr

/-- u128::MAX, the saturation bound of NearToken addition. -/
def U128_MAX : Nat := 2 ^ 128 - 1

/-- yoctoNEAR per NEAR. -/
def yoctoPerNear : Nat := 10 ^ 24

/-- NearToken::from_near, in yoctoNEAR. -/
def nearFromNear (n : Nat) : Nat := n * yoctoPerNear

/-- NearToken::saturating_add on yoctoNEAR amounts (u128 saturation). -/
def nearSaturatingAdd (a b : Nat) : Nat := min (a + b) U128_MAX

/-- NearToken::as_near: whole-NEAR part of a yoctoNEAR amount. -/
def asNear (a : Nat) : Nat := a / yoctoPerNear

/-- Proposal struct of the source; vote tallies are NearToken yoctoNEAR amounts. -/
structure Proposal where
  id : Nat
  title : String
  description : String
  proposer : AccountId
  votes_for : Nat
  votes_against : Nat
  voters : List AccountId
  status : ProposalStatus
deriving DecidableEq, Repr

/-- The JSON projection produced by Proposal::to_json_value: id, title,
description, proposer, votes_for/votes_against as whole NEAR, status. -/
structure ProposalView where
  id : Nat
  title : String
  description : String
  proposer : AccountId
  votes_for : Nat
  votes_against : Nat
  status : ProposalStatus
deriving DecidableEq, Repr

/-- Failure taxonomy; each constructor names the abort raised by the
corresponding require! / expect / panic_str site of the source. -/
inductive GovError where
  | DuplicateTokenError
  | NotFoundError
  | NotTokenHolderError
  | ProposalNotActiveError
  | AlreadyVotedError
  | UnauthorizedError
  | NonTransferableError
deriving DecidableEq, Repr

/-- Contract state: the union of the fields of the two SHLDContract struct
declarations in the source (the second declaration adds members_registry and
the three issuance counters, which revoke_nft uses). -/
structure SHLDContract where
  tokens : List (AccountId × Token)
  token_owners : List AccountId
  proposals : List (Nat × Proposal)
  next_proposal_id : Nat
  members_registry : List String
  next_nft_number : Nat
  current_minting_round : Nat
  minting_order_in_round : Nat
deriving DecidableEq, Repr

/-- SHLDContract::new. The source initialiser sets only the four fields of the
first struct declaration; the remaining fields start empty / zero. -/
def SHLDContract.new : SHLDContract :=
  { tokens := [], token_owners := [], proposals := [], next_proposal_id := 0,
    members_registry := [], next_nft_number := 0, current_minting_round := 0,
    minting_order_in_round := 0 }

/-- generate_unique_hash: format!("{}-{}", cooperative_id, nft_number). -/
def generate_unique_hash (_self : SHLDContract) (cooperative_id : String)
    (nft_number : Nat) : String :=
  cooperative_id ++ "-" ++ toString nft_number

/-- mint: fails when a token already exists for the account, otherwise stores
the token built from the supplied metadata and records the owner. -/
def mint (s : SHLDContract) (account_id : AccountId) (metadata : TokenMetadata) :
    Except GovError SHLDContract :=
  if (mapLookup s.tokens account_id).isSome then
    Except.error GovError.DuplicateTokenError
  else
    let token : Token := { owner_id := account_id, metadata := metadata }
    Except.ok { s with
      tokens := mapInsert s.tokens account_id token,
      token_owners := setInsert s.token_owners account_id }

/-- token_metadata query. -/
def token_metadata (s : SHLDContract) (account_id : AccountId) : Option TokenMetadata :=
  (mapLookup s.tokens account_id).map (fun token => token.metadata)

/-- is_token_owner query. -/
def is_token_owner (s : SHLDContract) (account_id : AccountId) : Bool :=
  decide (account_id ∈ s.token_owners)

/-- governance_role query. -/
def governance_role (s : SHLDContract) (account_id : AccountId) : Option String :=
  (mapLookup s.tokens account_id).map (fun token => token.metadata.governance_role)

/-- update_avatar_name: expect on the token lookup, then mutate and reinsert. -/
def update_avatar_name (s : SHLDContract) (account_id : AccountId)
    (new_avatar_name : String) : Except GovError SHLDContract :=
  match mapLookup s.tokens account_id with
  | none => Except.error GovError.NotFoundError
  | some token =>
      let token' : Token :=
        { token with metadata := { token.metadata with avatar_name := some new_avatar_name } }
      Except.ok { s with tokens := mapInsert s.tokens account_id token' }

/-- update_profile_description. -/
def update_profile_description (s : SHLDContract) (account_id : AccountId)
    (new_description : String) : Except GovError SHLDContract :=
  match mapLookup s.tokens account_id with
  | none => Except.error GovError.NotFoundError
  | some token =>
      let token' : Token :=
        { token with metadata := { token.metadata with profile_description := some new_description } }
      Except.ok { s with tokens := mapInsert s.tokens account_id token' }

/-- update_profile_image_url. -/
def update_profile_image_url (s : SHLDContract) (account_id : AccountId)
    (new_image_url : String) : Except GovError SHLDContract :=
  match mapLookup s.tokens account_id with
  | none => Except.error GovError.NotFoundError
  | some token =>
      let token' : Token :=
        { token with metadata := { token.metadata with profile_image_url := some new_image_url } }
      Except.ok { s with tokens := mapInsert s.tokens account_id token' }

/-- update_did. -/
def update_did (s : SHLDContract) (account_id : AccountId)
    (new_did : String) : Except GovError SHLDContract :=
  match mapLookup s.tokens account_id with
  | none => Except.error GovError.NotFoundError
  | some token =>
      let token' : Token :=
        { token with metadata := { token.metadata with did := some new_did } }
      Except.ok { s with tokens := mapInsert s.tokens account_id token' }

/-- add_member_title. -/
def add_member_title (s : SHLDContract) (account_id : AccountId)
    (new_title : String) : Except GovError SHLDContract :=
  match mapLookup s.tokens account_id with
  | none => Except.error GovError.NotFoundError
  | some token =>
      let token' : Token :=
        { token with metadata := { token.metadata with
            member_titles := token.metadata.member_titles ++ [new_title] } }
      Except.ok { s with tokens := mapInsert s.tokens account_id token' }

/-- revoke_nft: requires predecessor_account_id = current_account_id, then
removes the token (expect aborts when absent), the owner entry, and the
cooperative id from members_registry. -/
def revoke_nft (s : SHLDContract) (predecessor current_account account_id : AccountId) :
    Except GovError SHLDContract :=
  if predecessor ≠ current_account then Except.error GovError.UnauthorizedError
  else
    match mapLookup s.tokens account_id with
    | none => Except.error GovError.NotFoundError
    | some token =>
        Except.ok { s with
          tokens := mapRemove s.tokens account_id,
          token_owners := setRemove s.token_owners account_id,
          members_registry := setRemove s.members_registry token.metadata.cooperative_id }

/-- create_proposal: holder-gated, allocates the next sequential id, stores a
fresh Active proposal with zero tallies and no voters, returns the id. -/
def create_proposal (s : SHLDContract) (caller : AccountId)
    (title description : String) : Except GovError (SHLDContract × Nat) :=
  if is_token_owner s caller = true then
    let proposal_id := s.next_proposal_id
    let proposal : Proposal :=
      { id := proposal_id, title := title, description := description,
        proposer := caller, votes_for := nearFromNear 0,
        votes_against := nearFromNear 0, voters := [],
        status := ProposalStatus.Active }
    Except.ok ({ s with
      proposals := mapInsert s.proposals proposal_id proposal,
      next_proposal_id := s.next_proposal_id + 1 }, proposal_id)
  else Except.error GovError.NotTokenHolderError

/-- vote: holder-gated, then looks the proposal up, requires Active status and
a caller not yet in the voter set, adds one NEAR to the chosen tally, records
the voter, and runs the quorum check against the live holder count. -/
def vote (s : SHLDContract) (caller : AccountId) (proposal_id : Nat) (v : Bool) :
    Except GovError SHLDContract :=
  if is_token_owner s caller = true then
    match mapLookup s.proposals proposal_id with
    | none => Except.error GovError.NotFoundError
    | some proposal =>
        if proposal.status ≠ ProposalStatus.Active then
          Except.error GovError.ProposalNotActiveError
        else if caller ∈ proposal.voters then
          Except.error GovError.AlreadyVotedError
        else
          let p1 : Proposal :=
            if v then
              { proposal with votes_for := nearSaturatingAdd proposal.votes_for (nearFromNear 1) }
            else
              { proposal with votes_against := nearSaturatingAdd proposal.votes_against (nearFromNear 1) }
          let p2 : Proposal := { p1 with voters := setInsert p1.voters caller }
          let total_votes : Nat := asNear p2.votes_for + asNear p2.votes_against
          let p3 : Proposal :=
            if total_votes ≥ s.token_owners.length / 2 + 1 then
              { p2 with status :=
                  if p2.votes_for > p2.votes_against then ProposalStatus.Passed
                  else ProposalStatus.Rejected }
            else p2
          Except.ok { s with proposals := mapInsert s.proposals proposal_id p3 }
  else Except.error GovError.NotTokenHolderError

/-- Proposal::to_json_value. -/
def Proposal.to_json_value (p : Proposal) : ProposalView :=
  { id := p.id, title := p.title, description := p.description,
    proposer := p.proposer, votes_for := asNear p.votes_for,
    votes_against := asNear p.votes_against, status := p.status }

/-- get_proposal query. -/
def get_proposal (s : SHLDContract) (proposal_id : Nat) : Option ProposalView :=
  (mapLookup s.proposals proposal_id).map Proposal.to_json_value

/-- get_all_proposals: the values of the proposal map, projected. -/
def get_all_proposals (s : SHLDContract) : List ProposalView :=
  s.proposals.map (fun kv => kv.2.to_json_value)

/-- transfer: unconditional panic_str, the tokens are non-transferable. -/
def transfer (_s : SHLDContract) (_from _to : AccountId) : Except GovError SHLDContract :=
  Except.error GovError.NonTransferableError

/-- One externally invoked mutating call, with its caller identities. -/
inductive Op where
  | opMint (account : AccountId) (metadata : TokenMetadata)
  | opRevoke (predecessor current_account account : AccountId)
  | opUpdateAvatarName (account : AccountId) (v : String)
  | opUpdateProfileDescription (account : AccountId) (v : String)
  | opUpdateProfileImageUrl (account : AccountId) (v : String)
  | opUpdateDid (account : AccountId) (v : String)
  | opAddMemberTitle (account : AccountId) (v : String)
  | opCreateProposal (caller : AccountId) (title description : String)
  | opVote (caller : AccountId) (proposal_id : Nat) (v : Bool)
  | opTransfer (f t : AccountId)

/-- Transactional commit: a failed call leaves the state untouched. -/
def commit (s : SHLDContract) (r : Except GovError SHLDContract) : SHLDContract :=
  match r with
  | Except.ok s' => s'
  | Except.error _ => s

/-- Apply one external call transactionally. -/
def applyOp (s : SHLDContract) (op : Op) : SHLDContract :=
  match op with
  | Op.opMint a m => commit s (mint s a m)
  | Op.opRevoke pred cur a => commit s (revoke_nft s pred cur a)
  | Op.opUpdateAvatarName a v => commit s (update_avatar_name s a v)
  | Op.opUpdateProfileDescription a v => commit s (update_profile_description s a v)
  | Op.opUpdateProfileImageUrl a v => commit s (update_profile_image_url s a v)
  | Op.opUpdateDid a v => commit s (update_did s a v)
  | Op.opAddMemberTitle a v => commit s (add_member_title s a v)
  | Op.opCreateProposal c t d =>
      match create_proposal s c t d with
      | Except.ok (s', _) => s'
      | Except.error _ => s
  | Op.opVote c pid v => commit s (vote s c pid v)
  | Op.opTransfer f t => commit s (transfer s f t)

/-- States reachable from the fresh contract by external calls. -/
inductive Reachable : SHLDContract → Prop where
  | init : Reachable SHLDContract.new
  | step {s : SHLDContract} (h : Reachable s) (op : Op) : Reachable (applyOp s op)

/-! Basic lemmas about the association list and set models. -/

theorem mapLookup_mapInsert_self {κ ν : Type} [DecidableEq κ]
    (l : List (κ × ν)) (k : κ) (v : ν) :
    mapLookup (mapInsert l k v) k = some v := by
  induction l with
  | nil => simp [mapInsert, mapLookup]
  | cons hd tl ih =>
      obtain ⟨k', v'⟩ := hd
      by_cases h : k' = k <;> simp [mapInsert, mapLookup, h, ih]

theorem mapLookup_mapInsert_ne {κ ν : Type} [DecidableEq κ]
    (l : List (κ × ν)) (k k' : κ) (v : ν) (h : k' ≠ k) :
    mapLookup (mapInsert l k v) k' = mapLookup l k' := by
  have h' : ¬ k = k' := fun hh => h hh.symm
  induction l with
  | nil => simp [mapInsert, mapLookup, h']
  | cons hd tl ih =>
      obtain ⟨a, b⟩ := hd
      by_cases ha : a = k
      · subst ha
        simp [mapInsert, mapLookup, h']
      · simp [mapInsert, mapLookup, ha, ih]

theorem mapLookup_mapRemove_ne {κ ν : Type} [DecidableEq κ]
    (l : List (κ × ν)) (k k' : κ) (h : k' ≠ k) :
    mapLookup (mapRemove l k) k' = mapLookup l k' := by
  have h' : ¬ k = k' := fun hh => h hh.symm
  induction l with
  | nil => simp [mapRemove, mapLookup]
  | cons hd tl ih =>
      obtain ⟨a, b⟩ := hd
      by_cases ha : a = k
      · subst ha
        simp [mapRemove, mapLookup, h']
      · simp [mapRemove, mapLookup, ha, ih]

theorem mapLookup_isSome_iff_mem_keys {κ ν : Type} [DecidableEq κ]
    (l : List (κ × ν)) (k : κ) :
    (mapLookup l k).isSome = true ↔ k ∈ l.map Prod.fst := by
  induction l with
  | nil => simp [mapLookup]
  | cons hd tl ih =>
      obtain ⟨a, b⟩ := hd
      by_cases ha : a = k
      · subst ha
        simp [mapLookup]
      · have h' : ¬ k = a := fun hh => ha hh.symm
        simp [mapLookup, ha, ih, h']

theorem mapLookup_eq_none_iff {κ ν : Type} [DecidableEq κ]
    (l : List (κ × ν)) (k : κ) :
    mapLookup l k = none ↔ k ∉ l.map Prod.fst := by
  rw [← mapLookup_isSome_iff_mem_keys]
  cases mapLookup l k <;> simp

theorem mapLookup_some_mem {κ ν : Type} [DecidableEq κ]
    (l : List (κ × ν)) (k : κ) (v : ν) (h : mapLookup l k = some v) :
    (k, v) ∈ l := by
  induction l with
  | nil => simp [mapLookup] at h
  | cons hd tl ih =>
      obtain ⟨a, b⟩ := hd
      by_cases ha : a = k
      · subst ha
        simp [mapLookup] at h
        simp [h]
      · simp [mapLookup, ha] at h
        exact List.mem_cons_of_mem _ (ih h)

theorem keys_mapInsert_of_none {κ ν : Type} [DecidableEq κ]
    (l : List (κ × ν)) (k : κ) (v : ν) (h : mapLookup l k = none) :
    (mapInsert l k v).map Prod.fst = l.map Prod.fst ++ [k] := by
  induction l with
  | nil => simp [mapInsert]
  | cons hd tl ih =>
      obtain ⟨a, b⟩ := hd
      by_cases ha : a = k
      · simp [mapLookup, ha] at h
      · simp [mapLookup, ha] at h
        simp [mapInsert, ha, ih h]

theorem keys_mapInsert_of_isSome {κ ν : Type} [DecidableEq κ]
    (l : List (κ × ν)) (k : κ) (v : ν) (h : (mapLookup l k).isSome = true) :
    (mapInsert l k v).map Prod.fst = l.map Prod.fst := by
  induction l with
  | nil => simp [mapLookup] at h
  | cons hd tl ih =>
      obtain ⟨a, b⟩ := hd
      by_cases ha : a = k
      · simp [mapInsert, ha]
      · simp [mapLookup, ha] at h
        simp [mapInsert, ha, ih h]

theorem mem_of_mem_mapInsert {κ ν : Type} [DecidableEq κ]
    (l : List (κ × ν)) (k : κ) (v : ν) (p : κ × ν) (h : p ∈ mapInsert l k v) :
    p = (k, v) ∨ p ∈ l := by
  induction l with
  | nil => simp [mapInsert] at h; simp [h]
  | cons hd tl ih =>
      obtain ⟨a, b⟩ := hd
      by_cases ha : a = k
      · simp [mapInsert, ha] at h
        rcases h with h | h
        · exact Or.inl (by simp [h])
        · exact Or.inr (List.mem_cons_of_mem _ h)
      · simp [mapInsert, ha] at h
        rcases h with h | h
        · exact Or.inr (by simp [h])
        · rcases ih h with h' | h'
          · exact Or.inl h'
          · exact Or.inr (List.mem_cons_of_mem _ h')

theorem length_mapInsert_of_none {κ ν : Type} [DecidableEq κ]
    (l : List (κ × ν)) (k : κ) (v : ν) (h : mapLookup l k = none) :
    (mapInsert l k v).length = l.length + 1 := by
  induction l with
  | nil => simp [mapInsert]
  | cons hd tl ih =>
      obtain ⟨a, b⟩ := hd
      by_cases ha : a = k
      · simp [mapLookup, ha] at h
      · simp [mapLookup, ha] at h
        simp [mapInsert, ha, ih h]

theorem length_mapInsert_of_isSome {κ ν : Type} [DecidableEq κ]
    (l : List (κ × ν)) (k : κ) (v : ν) (h : (mapLookup l k).isSome = true) :
    (mapInsert l k v).length = l.length := by
  induction l with
  | nil => simp [mapLookup] at h
  | cons hd tl ih =>
      obtain ⟨a, b⟩ := hd
      by_cases ha : a = k
      · simp [mapInsert, ha]
      · simp [mapLookup, ha] at h
        simp [mapInsert, ha, ih h]

theorem length_mapRemove_of_isSome {κ ν : Type} [DecidableEq κ]
    (l : List (κ × ν)) (k : κ) (h : (mapLookup l k).isSome = true) :
    (mapRemove l k).length + 1 = l.length := by
  induction l with
  | nil => simp [mapLookup] at h
  | cons hd tl ih =>
      obtain ⟨a, b⟩ := hd
      by_cases ha : a = k
      · simp [mapRemove, ha]
      · simp [mapLookup, ha] at h
        simp [mapRemove, ha, ih h]

theorem keys_mapRemove_sublist {κ ν : Type} [DecidableEq κ]
    (l : List (κ × ν)) (k : κ) :
    ((mapRemove l k).map Prod.fst).Sublist (l.map Prod.fst) := by
  induction l with
  | nil => simp [mapRemove]
  | cons hd tl ih =>
      obtain ⟨a, b⟩ := hd
      by_cases ha : a = k
      · simp [mapRemove, ha]
      · simp [mapRemove, ha]
        exact ih

theorem keysNodup_mapRemove {κ ν : Type} [DecidableEq κ]
    (l : List (κ × ν)) (k : κ) (h : (l.map Prod.fst).Nodup) :
    ((mapRemove l k).map Prod.fst).Nodup :=
  (keys_mapRemove_sublist l k).nodup h

theorem mapLookup_mapRemove_self {κ ν : Type} [DecidableEq κ]
    (l : List (κ × ν)) (k : κ) (h : (l.map Prod.fst).Nodup) :
    mapLookup (mapRemove l k) k = none := by
  induction l with
  | nil => simp [mapRemove, mapLookup]
  | cons hd tl ih =>
      obtain ⟨a, b⟩ := hd
      simp only [List.map_cons, List.nodup_cons] at h
      by_cases ha : a = k
      · subst ha
        simp only [mapRemove, if_pos rfl]
        rw [mapLookup_eq_none_iff]
        exact h.1
      · simp [mapRemove, mapLookup, ha, ih h.2]

theorem keysNodup_mapInsert {κ ν : Type} [DecidableEq κ]
    (l : List (κ × ν)) (k : κ) (v : ν) (h : (l.map Prod.fst).Nodup) :
    ((mapInsert l k v).map Prod.fst).Nodup := by
  cases hl : mapLookup l k with
  | none =>
      rw [keys_mapInsert_of_none l k v hl]
      rw [mapLookup_eq_none_iff] at hl
      simp [List.nodup_append, h, hl]
  | some w =>
      rw [keys_mapInsert_of_isSome l k v (by simp [hl])]
      exact h

theorem mem_setInsert {κ : Type} [DecidableEq κ] (l : List κ) (a x : κ) :
    x ∈ setInsert l a ↔ x = a ∨ x ∈ l := by
  unfold setInsert
  by_cases h : a ∈ l
  · simp only [if_pos h]
    constructor
    · exact Or.inr
    · rintro (rfl | hx)
      · exact h
      · exact hx
  · simp [if_neg h, or_comm]

theorem length_setInsert_of_not_mem {κ : Type} [DecidableEq κ] (l : List κ) (a : κ)
    (h : a ∉ l) : (setInsert l a).length = l.length + 1 := by
  simp [setInsert, h]

theorem length_setInsert_of_mem {κ : Type} [DecidableEq κ] (l : List κ) (a : κ)
    (h : a ∈ l) : (setInsert l a).length = l.length := by
  simp [setInsert, h]

theorem nodup_setInsert {κ : Type} [DecidableEq κ] (l : List κ) (a : κ)
    (h : l.Nodup) : (setInsert l a).Nodup := by
  unfold setInsert
  by_cases ha : a ∈ l
  · simpa [ha]
  · simp [ha, List.nodup_append, h]

theorem setRemove_sublist {κ : Type} [DecidableEq κ] (l : List κ) (a : κ) :
    (setRemove l a).Sublist l := by
  induction l with
  | nil => simp [setRemove]
  | cons b tl ih =>
      by_cases hb : b = a
      · simp [setRemove, hb]
      · simp [setRemove, hb]
        exact ih

theorem nodup_setRemove {κ : Type} [DecidableEq κ] (l : List κ) (a : κ)
    (h : l.Nodup) : (setRemove l a).Nodup :=
  (setRemove_sublist l a).nodup h

theorem mem_setRemove_of_ne {κ : Type} [DecidableEq κ] (l : List κ) (a x : κ)
    (hx : x ≠ a) : x ∈ setRemove l a ↔ x ∈ l := by
  induction l with
  | nil => simp [setRemove]
  | cons b tl ih =>
      by_cases hb : b = a
      · subst hb
        simp [setRemove, hx, Ne.symm hx]
      · simp [setRemove, hb, ih]

theorem not_mem_setRemove_self {κ : Type} [DecidableEq κ] (l : List κ) (a : κ)
    (h : l.Nodup) : a ∉ setRemove l a := by
  induction l with
  | nil => simp [setRemove]
  | cons b tl ih =>
      simp only [List.nodup_cons] at h
      by_cases hb : b = a
      · subst hb
        simp [setRemove, h.1]
      · simp [setRemove, hb, ih h.2]
        exact fun hh => hb hh.symm

theorem length_setRemove_of_mem {κ : Type} [DecidableEq κ] (l : List κ) (a : κ)
    (h : a ∈ l) : (setRemove l a).length + 1 = l.length := by
  induction l with
  | nil => simp at h
  | cons b tl ih =>
      by_cases hb : b = a
      · simp [setRemove, hb]
      · have : a ∈ tl := by
          rcases List.mem_cons.mp h with h' | h'
          · exact absurd h'.symm hb
          · exact h'
        simp [setRemove, hb, ih this]

/-! Branch characterisations of the operations. -/

theorem mint_error_of_isSome (s : SHLDContract) (a : AccountId) (m : TokenMetadata)
    (h : (mapLookup s.tokens a).isSome = true) :
    mint s a m = Except.error GovError.DuplicateTokenError := by
  simp [mint, h]

theorem mint_ok_of_none (s : SHLDContract) (a : AccountId) (m : TokenMetadata)
    (h : mapLookup s.tokens a = none) :
    mint s a m = Except.ok { s with
      tokens := mapInsert s.tokens a { owner_id := a, metadata := m },
      token_owners := setInsert s.token_owners a } := by
  simp [mint, h]

theorem revoke_error_of_not_current (s : SHLDContract) (pred cur a : AccountId)
    (h : pred ≠ cur) :
    revoke_nft s pred cur a = Except.error GovError.UnauthorizedError := by
  simp [revoke_nft, h]

theorem revoke_error_of_none (s : SHLDContract) (cur a : AccountId)
    (h : mapLookup s.tokens a = none) :
    revoke_nft s cur cur a = Except.error GovError.NotFoundError := by
  simp [revoke_nft, h]

theorem revoke_ok_of_some (s : SHLDContract) (cur a : AccountId) (tok : Token)
    (h : mapLookup s.tokens a = some tok) :
    revoke_nft s cur cur a = Except.ok { s with
      tokens := mapRemove s.tokens a,
      token_owners := setRemove s.token_owners a,
      members_registry := setRemove s.members_registry tok.metadata.cooperative_id } := by
  simp [revoke_nft, h]

theorem create_proposal_error_of_not_owner (s : SHLDContract) (c : AccountId)
    (t d : String) (h : is_token_owner s c = false) :
    create_proposal s c t d = Except.error GovError.NotTokenHolderError := by
  simp [create_proposal, h]

theorem create_proposal_ok_of_owner (s : SHLDContract) (c : AccountId)
    (t d : String) (h : is_token_owner s c = true) :
    create_proposal s c t d = Except.ok ({ s with
      proposals := mapInsert s.proposals s.next_proposal_id
        { id := s.next_proposal_id, title := t, description := d, proposer := c,
          votes_for := nearFromNear 0, votes_against := nearFromNear 0,
          voters := [], status := ProposalStatus.Active },
      next_proposal_id := s.next_proposal_id + 1 }, s.next_proposal_id) := by
  simp [create_proposal, h]

/-- Step 5 of vote: add one NEAR to the chosen tally. -/
def voteTally (p : Proposal) (b : Bool) : Proposal :=
  if b then { p with votes_for := nearSaturatingAdd p.votes_for (nearFromNear 1) }
  else { p with votes_against := nearSaturatingAdd p.votes_against (nearFromNear 1) }

/-- Step 5 of vote: record the voter. -/
def voteRecordVoter (p : Proposal) (c : AccountId) : Proposal :=
  { p with voters := setInsert p.voters c }

/-- Step 6 of vote: the quorum check against the live holder count. -/
def voteResolve (p : Proposal) (holders : Nat) : Proposal :=
  if asNear p.votes_for + asNear p.votes_against ≥ holders / 2 + 1 then
    { p with status :=
        if p.votes_for > p.votes_against then ProposalStatus.Passed
        else ProposalStatus.Rejected }
  else p

/-- The proposal record an accepted vote writes back, as a function of the
proposal, the voter, the ballot, and the live holder count read at vote time. -/
def voteUpdate (p : Proposal) (c : AccountId) (b : Bool) (holders : Nat) : Proposal :=
  voteResolve (voteRecordVoter (voteTally p b) c) holders

theorem vote_error_of_not_owner (s : SHLDContract) (c : AccountId) (pid : Nat) (b : Bool)
    (h : is_token_owner s c = false) :
    vote s c pid b = Except.error GovError.NotTokenHolderError := by
  simp [vote, h]

theorem vote_error_of_none (s : SHLDContract) (c : AccountId) (pid : Nat) (b : Bool)
    (ho : is_token_owner s c = true) (h : mapLookup s.proposals pid = none) :
    vote s c pid b = Except.error GovError.NotFoundError := by
  simp [vote, ho, h]

theorem vote_error_of_not_active (s : SHLDContract) (c : AccountId) (pid : Nat) (b : Bool)
    (p : Proposal) (ho : is_token_owner s c = true)
    (hp : mapLookup s.proposals pid = some p) (hA : p.status ≠ ProposalStatus.Active) :
    vote s c pid b = Except.error GovError.ProposalNotActiveError := by
  simp [vote, ho, hp, hA]

theorem vote_error_of_voted (s : SHLDContract) (c : AccountId) (pid : Nat) (b : Bool)
    (p : Proposal) (ho : is_token_owner s c = true)
    (hp : mapLookup s.proposals pid = some p) (hA : p.status = ProposalStatus.Active)
    (hv : c ∈ p.voters) :
    vote s c pid b = Except.error GovError.AlreadyVotedError := by
  simp [vote, ho, hp, hA, hv]

theorem vote_ok_of_accepted (s : SHLDContract) (c : AccountId) (pid : Nat) (b : Bool)
    (p : Proposal) (ho : is_token_owner s c = true)
    (hp : mapLookup s.proposals pid = some p) (hA : p.status = ProposalStatus.Active)
    (hv : c ∉ p.voters) :
    vote s c pid b = Except.ok { s with
      proposals := mapInsert s.proposals pid (voteUpdate p c b s.token_owners.length) } := by
  simp [vote, voteUpdate, voteTally, voteRecordVoter, voteResolve, ho, hp, hA, hv]

theorem update_avatar_name_ok (s : SHLDContract) (a : AccountId) (v : String)
    (tok : Token) (h : mapLookup s.tokens a = some tok) :
    update_avatar_name s a v = Except.ok { s with tokens := mapInsert s.tokens a ({ tok with metadata := { tok.metadata with avatar_name := some v } }) } := by
  simp [update_avatar_name, h]

theorem update_profile_description_ok (s : SHLDContract) (a : AccountId) (v : String)
    (tok : Token) (h : mapLookup s.tokens a = some tok) :
    update_profile_description s a v = Except.ok { s with tokens := mapInsert s.tokens a ({ tok with metadata := { tok.metadata with profile_description := some v } }) } := by
  simp [update_profile_description, h]

theorem update_profile_image_url_ok (s : SHLDContract) (a : AccountId) (v : String)
    (tok : Token) (h : mapLookup s.tokens a = some tok) :
    update_profile_image_url s a v = Except.ok { s with tokens := mapInsert s.tokens a ({ tok with metadata := { tok.metadata with profile_image_url := some v } }) } := by
  simp [update_profile_image_url, h]

theorem update_did_ok (s : SHLDContract) (a : AccountId) (v : String)
    (tok : Token) (h : mapLookup s.tokens a = some tok) :
    update_did s a v = Except.ok { s with tokens := mapInsert s.tokens a ({ tok with metadata := { tok.metadata with did := some v } }) } := by
  simp [update_did, h]

theorem add_member_title_ok (s : SHLDContract) (a : AccountId) (v : String)
    (tok : Token) (h : mapLookup s.tokens a = some tok) :
    add_member_title s a v = Except.ok { s with tokens := mapInsert s.tokens a ({ tok with metadata := { tok.metadata with member_titles := tok.metadata.member_titles ++ [v] } }) } := by
  simp [add_member_title, h]

/-- Exhaustive outcome analysis of a vote call. -/
theorem vote_cases (s : SHLDContract) (c : AccountId) (pid : Nat) (b : Bool) :
    (∃ e, vote s c pid b = Except.error e) ∨
    (∃ p, mapLookup s.proposals pid = some p ∧ p.status = ProposalStatus.Active ∧
      c ∉ p.voters ∧ is_token_owner s c = true ∧
      vote s c pid b = Except.ok { s with
        proposals := mapInsert s.proposals pid (voteUpdate p c b s.token_owners.length) }) := by
  by_cases ho : is_token_owner s c = true
  · cases hp : mapLookup s.proposals pid with
    | none => exact Or.inl ⟨_, vote_error_of_none s c pid b ho hp⟩
    | some p =>
        by_cases hA : p.status = ProposalStatus.Active
        · by_cases hv : c ∈ p.voters
          · exact Or.inl ⟨_, vote_error_of_voted s c pid b p ho hp hA hv⟩
          · exact Or.inr ⟨p, rfl, hA, hv, ho, vote_ok_of_accepted s c pid b p ho hp hA hv⟩
        · exact Or.inl ⟨_, vote_error_of_not_active s c pid b p ho hp hA⟩
  · exact Or.inl ⟨_, vote_error_of_not_owner s c pid b (by simpa using ho)⟩

/-- Well-formedness of the membership bookkeeping: token_owners and the token
map record exactly the same accounts, without duplicates, so the set size
equals the number of live tokens. -/
def StateInv (s : SHLDContract) : Prop :=
  (∀ a, a ∈ s.token_owners ↔ (mapLookup s.tokens a).isSome = true) ∧
  s.token_owners.Nodup ∧
  (s.tokens.map Prod.fst).Nodup ∧
  s.token_owners.length = s.tokens.length

theorem stateInv_new : StateInv SHLDContract.new :=
  ⟨by simp [SHLDContract.new, mapLookup], by simp [SHLDContract.new],
   by simp [SHLDContract.new], by simp [SHLDContract.new]⟩

theorem stateInv_replace_token (s : SHLDContract) (a : AccountId) (tok' : Token)
    (h : StateInv s) (hsome : (mapLookup s.tokens a).isSome = true) :
    StateInv { s with tokens := mapInsert s.tokens a tok' } := by
  obtain ⟨hiff, hnd, hknd, hlen⟩ := h
  refine ⟨?_, hnd, keysNodup_mapInsert _ _ _ hknd, ?_⟩
  · intro x
    by_cases hx : x = a
    · subst hx
      simp only [mapLookup_mapInsert_self]
      simpa using (hiff x).mpr hsome
    · show x ∈ s.token_owners ↔ _
      rw [mapLookup_mapInsert_ne _ _ _ _ hx]
      exact hiff x
  · show s.token_owners.length = _
    rw [length_mapInsert_of_isSome _ _ _ hsome]
    exact hlen

theorem stateInv_set_proposals (s : SHLDContract) (ps : List (Nat × Proposal)) (np : Nat)
    (h : StateInv s) : StateInv { s with proposals := ps, next_proposal_id := np } := by
  obtain ⟨hiff, hnd, hknd, hlen⟩ := h
  exact ⟨hiff, hnd, hknd, hlen⟩

/-- Every external call preserves the membership bookkeeping invariant. -/
theorem stateInv_applyOp (s : SHLDContract) (op : Op) (h : StateInv s) :
    StateInv (applyOp s op) := by
  have hkeep := h
  obtain ⟨hiff, hnd, hknd, hlen⟩ := h
  cases op with
  | opMint a m =>
      cases hl : mapLookup s.tokens a with
      | some tok =>
          simp only [applyOp, commit, mint_error_of_isSome s a m (by simp [hl])]
          exact hkeep
      | none =>
          have hnot : a ∉ s.token_owners := by
            rw [hiff]
            simp [hl]
          simp only [applyOp, commit, mint_ok_of_none s a m hl]
          refine ⟨?_, nodup_setInsert _ _ hnd, keysNodup_mapInsert _ _ _ hknd, ?_⟩
          · intro x
            by_cases hx : x = a
            · subst hx
              simp [mem_setInsert, mapLookup_mapInsert_self]
            · show x ∈ setInsert s.token_owners a ↔ _
              rw [mem_setInsert, mapLookup_mapInsert_ne _ _ _ _ hx]
              simp [hx, hiff x]
          · show (setInsert s.token_owners a).length = _
            rw [length_setInsert_of_not_mem _ _ hnot, length_mapInsert_of_none _ _ _ hl, hlen]
  | opRevoke pred cur a =>
      by_cases hpc : pred = cur
      · subst hpc
        cases hl : mapLookup s.tokens a with
        | none =>
            simp only [applyOp, commit, revoke_error_of_none s pred a hl]
            exact hkeep
        | some tok =>
            have hmem : a ∈ s.token_owners := (hiff a).mpr (by simp [hl])
            simp only [applyOp, commit, revoke_ok_of_some s pred a tok hl]
            refine ⟨?_, nodup_setRemove _ _ hnd, keysNodup_mapRemove _ _ hknd, ?_⟩
            · intro x
              by_cases hx : x = a
              · subst hx
                simp only [mapLookup_mapRemove_self _ _ hknd]
                simpa using not_mem_setRemove_self _ _ hnd
              · show x ∈ setRemove s.token_owners a ↔ _
                rw [mem_setRemove_of_ne _ _ _ hx, mapLookup_mapRemove_ne _ _ _ hx]
                exact hiff x
            · show (setRemove s.token_owners a).length = (mapRemove s.tokens a).length
              have h1 := length_setRemove_of_mem _ _ hmem
              have h2 := length_mapRemove_of_isSome s.tokens a (by simp [hl])
              omega
      · simp only [applyOp, commit, revoke_error_of_not_current s pred cur a hpc]
        exact hkeep
  | opUpdateAvatarName a v =>
      cases hl : mapLookup s.tokens a with
      | none =>
          simp only [applyOp, commit, update_avatar_name, hl]
          exact hkeep
      | some tok =>
          simp only [applyOp, commit, update_avatar_name_ok s a v tok hl]
          exact stateInv_replace_token s a _ hkeep (by simp [hl])
  | opUpdateProfileDescription a v =>
      cases hl : mapLookup s.tokens a with
      | none =>
          simp only [applyOp, commit, update_profile_description, hl]
          exact hkeep
      | some tok =>
          simp only [applyOp, commit, update_profile_description_ok s a v tok hl]
          exact stateInv_replace_token s a _ hkeep (by simp [hl])
  | opUpdateProfileImageUrl a v =>
      cases hl : mapLookup s.tokens a with
      | none =>
          simp only [applyOp, commit, update_profile_image_url, hl]
          exact hkeep
      | some tok =>
          simp only [applyOp, commit, update_profile_image_url_ok s a v tok hl]
          exact stateInv_replace_token s a _ hkeep (by simp [hl])
  | opUpdateDid a v =>
      cases hl : mapLookup s.tokens a with
      | none =>
          simp only [applyOp, commit, update_did, hl]
          exact hkeep
      | some tok =>
          simp only [applyOp, commit, update_did_ok s a v tok hl]
          exact stateInv_replace_token s a _ hkeep (by simp [hl])
  | opAddMemberTitle a v =>
      cases hl : mapLookup s.tokens a with
      | none =>
          simp only [applyOp, commit, add_member_title, hl]
          exact hkeep
      | some tok =>
          simp only [applyOp, commit, add_member_title_ok s a v tok hl]
          exact stateInv_replace_token s a _ hkeep (by simp [hl])
  | opCreateProposal c t d =>
      by_cases ho : is_token_owner s c = true
      · simp only [applyOp, create_proposal_ok_of_owner s c t d ho]
        exact stateInv_set_proposals s _ _ hkeep
      · simp only [applyOp, create_proposal_error_of_not_owner s c t d (by simpa using ho)]
        exact hkeep
  | opVote c pid b =>
      rcases vote_cases s c pid b with ⟨e, he⟩ | ⟨p, hp, hA, hv, ho, hok⟩
      · simp only [applyOp, commit, he]
        exact hkeep
      · simp only [applyOp, commit, hok]
        exact stateInv_set_proposals s _ s.next_proposal_id hkeep
  | opTransfer f t =>
      simp only [applyOp, commit, transfer]
      exact hkeep

theorem stateInv_reachable (s : SHLDContract) (h : Reachable s) : StateInv s := by
  induction h with
  | init => exact stateInv_new
  | step h op ih => exact stateInv_applyOp _ op ih

theorem voteTally_id (p : Proposal) (b : Bool) : (voteTally p b).id = p.id := by
  unfold voteTally
  split <;> rfl

theorem voteTally_voters (p : Proposal) (b : Bool) : (voteTally p b).voters = p.voters := by
  unfold voteTally
  split <;> rfl

theorem voteTally_status (p : Proposal) (b : Bool) : (voteTally p b).status = p.status := by
  unfold voteTally
  split <;> rfl

theorem voteTally_votes_for (p : Proposal) (b : Bool) :
    (voteTally p b).votes_for =
      (if b then nearSaturatingAdd p.votes_for (nearFromNear 1) else p.votes_for) := by
  unfold voteTally
  split <;> simp [*]

theorem voteTally_votes_against (p : Proposal) (b : Bool) :
    (voteTally p b).votes_against =
      (if b then p.votes_against else nearSaturatingAdd p.votes_against (nearFromNear 1)) := by
  unfold voteTally
  split <;> simp [*]

theorem voteResolve_id (p : Proposal) (n : Nat) : (voteResolve p n).id = p.id := by
  unfold voteResolve
  split <;> rfl

theorem voteResolve_votes_for (p : Proposal) (n : Nat) :
    (voteResolve p n).votes_for = p.votes_for := by
  unfold voteResolve
  split <;> rfl

theorem voteResolve_votes_against (p : Proposal) (n : Nat) :
    (voteResolve p n).votes_against = p.votes_against := by
  unfold voteResolve
  split <;> rfl

theorem voteResolve_voters (p : Proposal) (n : Nat) :
    (voteResolve p n).voters = p.voters := by
  unfold voteResolve
  split <;> rfl

theorem voteResolve_status (p : Proposal) (n : Nat) :
    (voteResolve p n).status =
      (if asNear p.votes_for + asNear p.votes_against ≥ n / 2 + 1 then
        (if p.votes_for > p.votes_against then ProposalStatus.Passed
         else ProposalStatus.Rejected)
      else p.status) := by
  unfold voteResolve
  split <;> simp [*]

/-- The accepted-vote update never changes the stored proposal id. -/
theorem voteUpdate_id (p : Proposal) (c : AccountId) (b : Bool) (n : Nat) :
    (voteUpdate p c b n).id = p.id := by
  unfold voteUpdate
  rw [voteResolve_id, voteRecordVoter, voteTally_id]

/-- Tallies, voter set and status written by the accepted-vote update. -/
theorem voteUpdate_fields (p : Proposal) (c : AccountId) (b : Bool) (n : Nat) :
    (voteUpdate p c b n).votes_for =
      (if b then nearSaturatingAdd p.votes_for (nearFromNear 1) else p.votes_for) ∧
    (voteUpdate p c b n).votes_against =
      (if b then p.votes_against else nearSaturatingAdd p.votes_against (nearFromNear 1)) ∧
    (voteUpdate p c b n).voters = setInsert p.voters c ∧
    (voteUpdate p c b n).status =
      (if asNear (voteUpdate p c b n).votes_for + asNear (voteUpdate p c b n).votes_against ≥
          n / 2 + 1 then
        (if (voteUpdate p c b n).votes_for > (voteUpdate p c b n).votes_against then
          ProposalStatus.Passed
        else ProposalStatus.Rejected)
      else p.status) := by
  have hvf : (voteUpdate p c b n).votes_for =
      (if b then nearSaturatingAdd p.votes_for (nearFromNear 1) else p.votes_for) := by
    rw [voteUpdate, voteResolve_votes_for, voteRecordVoter]
    exact voteTally_votes_for p b
  have hva : (voteUpdate p c b n).votes_against =
      (if b then p.votes_against else nearSaturatingAdd p.votes_against (nearFromNear 1)) := by
    rw [voteUpdate, voteResolve_votes_against, voteRecordVoter]
    exact voteTally_votes_against p b
  have hvv : (voteUpdate p c b n).voters = setInsert p.voters c := by
    rw [voteUpdate, voteResolve_voters, voteRecordVoter, voteTally_voters]
  refine ⟨hvf, hva, hvv, ?_⟩
  have h1 : (voteRecordVoter (voteTally p b) c).votes_for =
      (if b then nearSaturatingAdd p.votes_for (nearFromNear 1) else p.votes_for) := by
    rw [voteRecordVoter]
    exact voteTally_votes_for p b
  have h2 : (voteRecordVoter (voteTally p b) c).votes_against =
      (if b then p.votes_against else nearSaturatingAdd p.votes_against (nearFromNear 1)) := by
    rw [voteRecordVoter]
    exact voteTally_votes_against p b
  have h3 : (voteRecordVoter (voteTally p b) c).status = p.status := by
    rw [voteRecordVoter, voteTally_status]
  rw [voteUpdate, voteResolve_status]
  rw [voteUpdate] at hvf hva
  rw [hvf, hva, h1, h2, h3]

/-- Ids stored in the proposal map are exactly 0, 1, ..., next_proposal_id - 1
in insertion order, and every record carries its own key as id. -/
def ProposalsInv (s : SHLDContract) : Prop :=
  s.proposals.map Prod.fst = List.range s.next_proposal_id ∧
  ∀ kv ∈ s.proposals, kv.2.id = kv.1

theorem proposalsInv_new : ProposalsInv SHLDContract.new := by
  constructor <;> simp [SHLDContract.new]

/-- Every external call preserves the proposal id layout. -/
theorem proposalsInv_applyOp (s : SHLDContract) (op : Op) (h : ProposalsInv s) :
    ProposalsInv (applyOp s op) := by
  have hkeep := h
  obtain ⟨hkeys, hids⟩ := h
  cases op with
  | opMint a m =>
      cases hl : mapLookup s.tokens a with
      | some tok =>
          simp only [applyOp, commit, mint_error_of_isSome s a m (by simp [hl])]
          exact hkeep
      | none =>
          simp only [applyOp, commit, mint_ok_of_none s a m hl]
          exact ⟨hkeys, hids⟩
  | opRevoke pred cur a =>
      by_cases hpc : pred = cur
      · subst hpc
        cases hl : mapLookup s.tokens a with
        | none =>
            simp only [applyOp, commit, revoke_error_of_none s pred a hl]
            exact hkeep
        | some tok =>
            simp only [applyOp, commit, revoke_ok_of_some s pred a tok hl]
            exact ⟨hkeys, hids⟩
      · simp only [applyOp, commit, revoke_error_of_not_current s pred cur a hpc]
        exact hkeep
  | opUpdateAvatarName a v =>
      cases hl : mapLookup s.tokens a with
      | none =>
          simp only [applyOp, commit, update_avatar_name, hl]
          exact hkeep
      | some tok =>
          simp only [applyOp, commit, update_avatar_name_ok s a v tok hl]
          exact ⟨hkeys, hids⟩
  | opUpdateProfileDescription a v =>
      cases hl : mapLookup s.tokens a with
      | none =>
          simp only [applyOp, commit, update_profile_description, hl]
          exact hkeep
      | some tok =>
          simp only [applyOp, commit, update_profile_description_ok s a v tok hl]
          exact ⟨hkeys, hids⟩
  | opUpdateProfileImageUrl a v =>
      cases hl : mapLookup s.tokens a with
      | none =>
          simp only [applyOp, commit, update_profile_image_url, hl]
          exact hkeep
      | some tok =>
          simp only [applyOp, commit, update_profile_image_url_ok s a v tok hl]
          exact ⟨hkeys, hids⟩
  | opUpdateDid a v =>
      cases hl : mapLookup s.tokens a with
      | none =>
          simp only [applyOp, commit, update_did, hl]
          exact hkeep
      | some tok =>
          simp only [applyOp, commit, update_did_ok s a v tok hl]
          exact ⟨hkeys, hids⟩
  | opAddMemberTitle a v =>
      cases hl : mapLookup s.tokens a with
      | none =>
          simp only [applyOp, commit, add_member_title, hl]
          exact hkeep
      | some tok =>
          simp only [applyOp, commit, add_member_title_ok s a v tok hl]
          exact ⟨hkeys, hids⟩
  | opCreateProposal c t d =>
      by_cases ho : is_token_owner s c = true
      · have hnone : mapLookup s.proposals s.next_proposal_id = none := by
          rw [mapLookup_eq_none_iff, hkeys]
          simp
        simp only [applyOp, create_proposal_ok_of_owner s c t d ho]
        constructor
        · show (mapInsert s.proposals s.next_proposal_id _).map Prod.fst = _
          rw [keys_mapInsert_of_none _ _ _ hnone, hkeys, List.range_succ]
        · intro kv hkv
          rcases mem_of_mem_mapInsert _ _ _ _ hkv with h' | h'
          · rw [h']
          · exact hids kv h'
      · simp only [applyOp, create_proposal_error_of_not_owner s c t d (by simpa using ho)]
        exact hkeep
  | opVote c pid b =>
      rcases vote_cases s c pid b with ⟨e, he⟩ | ⟨p, hp, hA, hv, ho, hok⟩
      · simp only [applyOp, commit, he]
        exact hkeep
      · simp only [applyOp, commit, hok]
        constructor
        · show (mapInsert s.proposals pid _).map Prod.fst = _
          rw [keys_mapInsert_of_isSome _ _ _ (by simp [hp]), hkeys]
        · intro kv hkv
          rcases mem_of_mem_mapInsert _ _ _ _ hkv with h' | h'
          · rw [h']
            show (voteUpdate p c b s.token_owners.length).id = pid
            rw [voteUpdate_id]
            exact hids (pid, p) (mapLookup_some_mem _ _ _ hp)
          · exact hids kv h'
  | opTransfer f t =>
      simp only [applyOp, commit, transfer]
      exact hkeep

theorem proposalsInv_reachable (s : SHLDContract) (h : Reachable s) : ProposalsInv s := by
  induction h with
  | init => exact proposalsInv_new
  | step h op ih => exact proposalsInv_applyOp _ op ih

/-- Once a proposal is stored with a non-Active status, no external call
changes its record, provided the state has the reachable id layout. -/
theorem resolved_frozen_step (s : SHLDContract) (pid : Nat) (p : Proposal) (op : Op)
    (hinv : ProposalsInv s)
    (hp : mapLookup s.proposals pid = some p)
    (hne : p.status ≠ ProposalStatus.Active) :
    mapLookup (applyOp s op).proposals pid = some p := by
  obtain ⟨hkeys, hids⟩ := hinv
  have hpid_lt : pid < s.next_proposal_id := by
    have : pid ∈ s.proposals.map Prod.fst :=
      (mapLookup_isSome_iff_mem_keys _ _).mp (by simp [hp])
    rw [hkeys] at this
    exact List.mem_range.mp this
  cases op with
  | opMint a m =>
      cases hl : mapLookup s.tokens a with
      | some tok =>
          simp only [applyOp, commit, mint_error_of_isSome s a m (by simp [hl])]
          exact hp
      | none =>
          simp only [applyOp, commit, mint_ok_of_none s a m hl]
          exact hp
  | opRevoke pred cur a =>
      by_cases hpc : pred = cur
      · subst hpc
        cases hl : mapLookup s.tokens a with
        | none =>
            simp only [applyOp, commit, revoke_error_of_none s pred a hl]
            exact hp
        | some tok =>
            simp only [applyOp, commit, revoke_ok_of_some s pred a tok hl]
            exact hp
      · simp only [applyOp, commit, revoke_error_of_not_current s pred cur a hpc]
        exact hp
  | opUpdateAvatarName a v =>
      cases hl : mapLookup s.tokens a with
      | none =>
          simp only [applyOp, commit, update_avatar_name, hl]
          exact hp
      | some tok =>
          simp only [applyOp, commit, update_avatar_name_ok s a v tok hl]
          exact hp
  | opUpdateProfileDescription a v =>
      cases hl : mapLookup s.tokens a with
      | none =>
          simp only [applyOp, commit, update_profile_description, hl]
          exact hp
      | some tok =>
          simp only [applyOp, commit, update_profile_description_ok s a v tok hl]
          exact hp
  | opUpdateProfileImageUrl a v =>
      cases hl : mapLookup s.tokens a with
      | none =>
          simp only [applyOp, commit, update_profile_image_url, hl]
          exact hp
      | some tok =>
          simp only [applyOp, commit, update_profile_image_url_ok s a v tok hl]
          exact hp
  | opUpdateDid a v =>
      cases hl : mapLookup s.tokens a with
      | none =>
          simp only [applyOp, commit, update_did, hl]
          exact hp
      | some tok =>
          simp only [applyOp, commit, update_did_ok s a v tok hl]
          exact hp
  | opAddMemberTitle a v =>
      cases hl : mapLookup s.tokens a with
      | none =>
          simp only [applyOp, commit, add_member_title, hl]
          exact hp
      | some tok =>
          simp only [applyOp, commit, add_member_title_ok s a v tok hl]
          exact hp
  | opCreateProposal c t d =>
      by_cases ho : is_token_owner s c = true
      · simp only [applyOp, create_proposal_ok_of_owner s c t d ho]
        show mapLookup (mapInsert s.proposals s.next_proposal_id _) pid = some p
        rw [mapLookup_mapInsert_ne _ _ _ _ (Nat.ne_of_lt hpid_lt)]
        exact hp
      · simp only [applyOp, create_proposal_error_of_not_owner s c t d (by simpa using ho)]
        exact hp
  | opVote c pid' b =>
      rcases vote_cases s c pid' b with ⟨e, he⟩ | ⟨q, hq, hqA, hqv, ho, hok⟩
      · simp only [applyOp, commit, he]
        exact hp
      · by_cases hpp : pid' = pid
        · subst hpp
          rw [hp] at hq
          cases hq
          exact absurd hqA hne
        · simp only [applyOp, commit, hok]
          show mapLookup (mapInsert s.proposals pid' _) pid = some p
          rw [mapLookup_mapInsert_ne _ _ _ _ (fun hh => hpp hh.symm)]
          exact hp
  | opTransfer f t =>
      simp only [applyOp, commit, transfer]
      exact hp

/-! Concrete scenario states used by the verification theorems. -/

/-- A concrete metadata record, as a caller would supply it to mint. -/
def mdA : TokenMetadata :=
  { ticker_title := "SHLD", avatar_name := none, profile_description := none,
    governance_role := "Member", profile_image_url := none, cooperative_id := "coop",
    did := none, verification_status := "pending", minting_timestamp := 0,
    nft_number := 7, minting_round := 0, minting_order_in_round := 0,
    unique_hash := "stub", member_titles := [] }

/-- Fresh contract after minting for alice. -/
def sMintA : SHLDContract := applyOp SHLDContract.new (Op.opMint "alice" mdA)

/-- ... then alice creates proposal 0. -/
def sProp : SHLDContract := applyOp sMintA (Op.opCreateProposal "alice" "t" "d")

/-- ... then alice votes in favour while she is the only holder. -/
def sVoted1 : SHLDContract := applyOp sProp (Op.opVote "alice" 0 true)

/-- ... or instead bob and carol are minted first, making three holders. -/
def sThree : SHLDContract :=
  applyOp (applyOp sProp (Op.opMint "bob" mdA)) (Op.opMint "carol" mdA)

/-- ... and then alice votes in favour with three holders. -/
def sThreeVoted : SHLDContract := applyOp sThree (Op.opVote "alice" 0 true)

theorem reachable_sMintA : Reachable sMintA :=
  Reachable.step Reachable.init (Op.opMint "alice" mdA)

theorem reachable_sProp : Reachable sProp :=
  Reachable.step reachable_sMintA (Op.opCreateProposal "alice" "t" "d")

theorem reachable_sVoted1 : Reachable sVoted1 :=
  Reachable.step reachable_sProp (Op.opVote "alice" 0 true)

theorem reachable_sThree : Reachable sThree :=
  Reachable.step (Reachable.step reachable_sProp (Op.opMint "bob" mdA)) (Op.opMint "carol" mdA)

theorem reachable_sThreeVoted : Reachable sThreeVoted :=
  Reachable.step reachable_sThree (Op.opVote "alice" 0 true)

/-- Proposal 0 as stored in sVoted1: resolved Passed on the first vote. -/
def pVoted1 : Proposal :=
  { id := 0, title := "t", description := "d", proposer := "alice",
    votes_for := nearFromNear 1, votes_against := 0, voters := ["alice"],
    status := ProposalStatus.Passed }

/-- Proposal 0 as stored in sThreeVoted: one vote of three holders, Active. -/
def pThreeVoted : Proposal :=
  { id := 0, title := "t", description := "d", proposer := "alice",
    votes_for := nearFromNear 1, votes_against := 0, voters := ["alice"],
    status := ProposalStatus.Active }


/-! Claim theorems. -/

/-- C1: the claim says a successful mint stamps the stored token with a fresh
issuance sequence number, the current round and intra-round order, and a
unique_hash derived from the cohort id and the sequence number.  The code
does none of that: the caller supplied metadata is stored verbatim, the
issuance counters of the contract are untouched, generate_unique_hash is
never called, and only the holder registration happens.  This theorem
evaluates mint at a concrete input and exhibits the divergence. -/
theorem c1_mint_does_not_stamp :
    mint SHLDContract.new "alice" mdA = Except.ok sMintA ∧
    mapLookup sMintA.tokens "alice" = some { owner_id := "alice", metadata := mdA } ∧
    sMintA.next_nft_number = SHLDContract.new.next_nft_number ∧
    sMintA.current_minting_round = SHLDContract.new.current_minting_round ∧
    sMintA.minting_order_in_round = SHLDContract.new.minting_order_in_round ∧
    mdA.unique_hash ≠ generate_unique_hash sMintA mdA.cooperative_id mdA.nft_number ∧
    "alice" ∈ sMintA.token_owners := by
  refine ⟨rfl, by decide, by decide, by decide, by decide, by decide, by decide⟩

/-- C2: after every accepted vote, the quorum check runs: with the updated
tallies and quorum = floor(live holder count / 2) + 1 read from the state at
vote time, the status becomes Passed when the total reaches quorum with
strictly more votes in favour, Rejected otherwise (so an exact tie at quorum
resolves to Rejected), and stays Active below quorum. -/
theorem c2_quorum_check (s s' : SHLDContract) (c : AccountId) (pid : Nat) (b : Bool)
    (p' : Proposal)
    (hvote : vote s c pid b = Except.ok s')
    (hp' : mapLookup s'.proposals pid = some p') :
    p'.status =
      (if asNear p'.votes_for + asNear p'.votes_against ≥ s.token_owners.length / 2 + 1 then
        (if p'.votes_for > p'.votes_against then ProposalStatus.Passed
         else ProposalStatus.Rejected)
      else ProposalStatus.Active) := by
  rcases vote_cases s c pid b with ⟨e, he⟩ | ⟨p, hp, hA, hv, ho, hok⟩
  · rw [he] at hvote
    cases hvote
  · rw [hok] at hvote
    have hs' : ({ s with proposals := mapInsert s.proposals pid (voteUpdate p c b s.token_owners.length) } : SHLDContract) = s' := by
      injection hvote
    rw [← hs'] at hp'
    have hp'' : mapLookup
        (mapInsert s.proposals pid (voteUpdate p c b s.token_owners.length)) pid = some p' := hp'
    rw [mapLookup_mapInsert_self] at hp''
    have hpu : voteUpdate p c b s.token_owners.length = p' := by
      injection hp''
    obtain ⟨hvf, hva, hvv, hst⟩ := voteUpdate_fields p c b s.token_owners.length
    rw [hpu] at hst
    rw [hst, hA]

/-- C2 witness: the sole holder votes in favour, quorum 1 is reached, and the
formula yields the stored status Passed. -/
theorem c2_quorum_check_witness :
    pVoted1.status =
      (if asNear pVoted1.votes_for + asNear pVoted1.votes_against ≥
          sProp.token_owners.length / 2 + 1 then
        (if pVoted1.votes_for > pVoted1.votes_against then ProposalStatus.Passed
         else ProposalStatus.Rejected)
      else ProposalStatus.Active) :=
  c2_quorum_check sProp sVoted1 "alice" 0 true pVoted1 rfl (by decide)

/-- C3: in a reachable state, once a proposal has left Active, every further
vote call on it fails (with ProposalNotActiveError whenever the caller is a
holder, so that the earlier guards pass), and no operation whatsoever changes
its stored record: tallies, voter set and status are frozen, making
Active to Passed and Active to Rejected terminal one-way transitions. -/
theorem c3_resolved_terminal (s : SHLDContract) (pid : Nat) (p : Proposal)
    (hreach : Reachable s)
    (hp : mapLookup s.proposals pid = some p)
    (hne : p.status ≠ ProposalStatus.Active) :
    (∀ c b, ∃ e, vote s c pid b = Except.error e) ∧
    (∀ c b, is_token_owner s c = true →
      vote s c pid b = Except.error GovError.ProposalNotActiveError) ∧
    (∀ op, mapLookup (applyOp s op).proposals pid = some p) := by
  refine ⟨?_, ?_, ?_⟩
  · intro c b
    by_cases ho : is_token_owner s c = true
    · exact ⟨_, vote_error_of_not_active s c pid b p ho hp hne⟩
    · exact ⟨_, vote_error_of_not_owner s c pid b (by simpa using ho)⟩
  · intro c b ho
    exact vote_error_of_not_active s c pid b p ho hp hne
  · intro op
    exact resolved_frozen_step s pid p op (proposalsInv_reachable s hreach) hp hne

/-- C3 witness: proposal 0 of sVoted1 is Passed; a further vote by the holder
alice fails with ProposalNotActiveError, and a subsequent operation leaves the
stored record intact. -/
theorem c3_resolved_terminal_witness :
    vote sVoted1 "alice" 0 false = Except.error GovError.ProposalNotActiveError ∧
    mapLookup (applyOp sVoted1 (Op.opMint "bob" mdA)).proposals 0 = some pVoted1 :=
  ⟨(c3_resolved_terminal sVoted1 0 pVoted1 reachable_sVoted1 (by decide)
      (by decide)).2.1 "alice" false (by decide),
   (c3_resolved_terminal sVoted1 0 pVoted1 reachable_sVoted1 (by decide)
      (by decide)).2.2 (Op.opMint "bob" mdA)⟩

/-- C4: the quorum denominator of vote is the live holder count at the moment
of that vote, not a snapshot taken at proposal creation: the outcome of a vote
call depends only on the proposal store, the caller eligibility bit and the
current holder count, and concretely the same vote on the same stored proposal
record resolves to Passed with one holder (quorum 1) but stays Active after
two interleaved mints raised the live count to three (quorum 2). -/
theorem c4_quorum_uses_live_count :
    (∀ s t : SHLDContract, ∀ c pid b, s.proposals = t.proposals →
      is_token_owner s c = is_token_owner t c →
      s.token_owners.length = t.token_owners.length →
      (vote s c pid b).map (fun u => u.proposals) =
        (vote t c pid b).map (fun u => u.proposals)) ∧
    mapLookup sProp.proposals 0 = mapLookup sThree.proposals 0 ∧
    sProp.token_owners.length / 2 + 1 = 1 ∧
    sThree.token_owners.length / 2 + 1 = 2 ∧
    mapLookup sVoted1.proposals 0 = some pVoted1 ∧
    pVoted1.status = ProposalStatus.Passed ∧
    mapLookup sThreeVoted.proposals 0 = some pThreeVoted ∧
    pThreeVoted.status = ProposalStatus.Active := by
  refine ⟨?_, by decide, by decide, by decide, by decide, by decide, by decide, by decide⟩
  intro s t c pid b hprops hown hlen
  by_cases ho : is_token_owner s c = true
  · have hot : is_token_owner t c = true := hown ▸ ho
    cases hp : mapLookup s.proposals pid with
    | none =>
        have hpt : mapLookup t.proposals pid = none := hprops ▸ hp
        rw [vote_error_of_none s c pid b ho hp, vote_error_of_none t c pid b hot hpt]
    | some p =>
        have hpt : mapLookup t.proposals pid = some p := hprops ▸ hp
        by_cases hA : p.status = ProposalStatus.Active
        · by_cases hv : c ∈ p.voters
          · rw [vote_error_of_voted s c pid b p ho hp hA hv,
                vote_error_of_voted t c pid b p hot hpt hA hv]
          · rw [vote_ok_of_accepted s c pid b p ho hp hA hv,
                vote_ok_of_accepted t c pid b p hot hpt hA hv]
            simp only [Except.map]
            rw [hprops, hlen]
        · rw [vote_error_of_not_active s c pid b p ho hp hA,
              vote_error_of_not_active t c pid b p hot hpt hA]
  · have hof : is_token_owner s c = false := by simpa using ho
    have hot : is_token_owner t c = false := hown ▸ hof
    rw [vote_error_of_not_owner s c pid b hof, vote_error_of_not_owner t c pid b hot]

/-- C4 witness: the general conjunct applied at a concrete pair of states. -/
theorem c4_quorum_uses_live_count_witness :
    (vote sProp "alice" 0 true).map (fun u => u.proposals) =
      (vote sProp "alice" 0 true).map (fun u => u.proposals) :=
  c4_quorum_uses_live_count.1 sProp sProp "alice" 0 true rfl rfl rfl

/-- C5: minting for an account that already holds a token fails with
DuplicateTokenError and the failed transaction leaves the entire state
exactly as it was. -/
theorem c5_duplicate_mint (s : SHLDContract) (a : AccountId) (m : TokenMetadata)
    (h : (mapLookup s.tokens a).isSome = true) :
    mint s a m = Except.error GovError.DuplicateTokenError ∧
    applyOp s (Op.opMint a m) = s :=
  ⟨mint_error_of_isSome s a m h,
   by simp only [applyOp, commit, mint_error_of_isSome s a m h]⟩

/-- C5 witness: minting alice a second time fails and changes nothing. -/
theorem c5_duplicate_mint_witness :
    mint sMintA "alice" mdA = Except.error GovError.DuplicateTokenError ∧
    applyOp sMintA (Op.opMint "alice" mdA) = sMintA :=
  c5_duplicate_mint sMintA "alice" mdA (by decide)

/-- C6: a second vote call from an account already in the voter set of an
Active proposal fails with AlreadyVotedError whatever the ballot, and the
failed transaction leaves the entire state (tallies, voter set, status
included) exactly as it was. -/
theorem c6_second_vote_rejected (s : SHLDContract) (c : AccountId) (pid : Nat) (b : Bool)
    (p : Proposal)
    (ho : is_token_owner s c = true)
    (hp : mapLookup s.proposals pid = some p)
    (hA : p.status = ProposalStatus.Active)
    (hv : c ∈ p.voters) :
    vote s c pid b = Except.error GovError.AlreadyVotedError ∧
    applyOp s (Op.opVote c pid b) = s :=
  ⟨vote_error_of_voted s c pid b p ho hp hA hv,
   by simp only [applyOp, commit, vote_error_of_voted s c pid b p ho hp hA hv]⟩

/-- C6 witness: alice already voted on the still Active proposal 0 of
sThreeVoted; voting again with the opposite ballot fails and changes
nothing. -/
theorem c6_second_vote_rejected_witness :
    vote sThreeVoted "alice" 0 false = Except.error GovError.AlreadyVotedError ∧
    applyOp sThreeVoted (Op.opVote "alice" 0 false) = sThreeVoted :=
  c6_second_vote_rejected sThreeVoted "alice" 0 false pThreeVoted (by decide) (by decide)
    (by decide) (by decide)

/-- C7: revoke_nft requires the caller (predecessor) to be the contract
account, failing with UnauthorizedError otherwise; with an authorized caller
it fails with NotFoundError when no token exists for the account; on success
it removes the token, removes the account from the holder set so the quorum
denominator shrinks by one, and removes the cohort id of the token from
members_registry, leaving proposals untouched. -/
theorem c7_revoke_behaviour (s : SHLDContract) (pred cur acct : AccountId)
    (hreach : Reachable s) :
    (pred ≠ cur → revoke_nft s pred cur acct = Except.error GovError.UnauthorizedError) ∧
    (mapLookup s.tokens acct = none →
      revoke_nft s cur cur acct = Except.error GovError.NotFoundError) ∧
    (∀ tok, mapLookup s.tokens acct = some tok →
      ∃ s', revoke_nft s cur cur acct = Except.ok s' ∧
        mapLookup s'.tokens acct = none ∧
        acct ∉ s'.token_owners ∧
        s'.token_owners.length + 1 = s.token_owners.length ∧
        s'.members_registry = setRemove s.members_registry tok.metadata.cooperative_id ∧
        s'.proposals = s.proposals) := by
  obtain ⟨hiff, hnd, hknd, hlen⟩ := stateInv_reachable s hreach
  refine ⟨fun h => revoke_error_of_not_current s pred cur acct h,
          fun h => revoke_error_of_none s cur acct h, ?_⟩
  intro tok htok
  refine ⟨_, revoke_ok_of_some s cur acct tok htok, ?_, ?_, ?_, rfl, rfl⟩
  · exact mapLookup_mapRemove_self _ _ hknd
  · exact not_mem_setRemove_self _ _ hnd
  · exact length_setRemove_of_mem s.token_owners acct ((hiff acct).mpr (by simp [htok]))

/-- C7 witness: an unauthorized caller is rejected, and the contract account
successfully revokes the alice token with all three removals. -/
theorem c7_revoke_behaviour_witness :
    revoke_nft sMintA "bob" "shld" "alice" = Except.error GovError.UnauthorizedError ∧
    (∃ s', revoke_nft sMintA "shld" "shld" "alice" = Except.ok s' ∧
      mapLookup s'.tokens "alice" = none ∧
      "alice" ∉ s'.token_owners ∧
      s'.token_owners.length + 1 = sMintA.token_owners.length ∧
      s'.members_registry =
        setRemove sMintA.members_registry
          (Token.mk "alice" mdA).metadata.cooperative_id ∧
      s'.proposals = sMintA.proposals) :=
  ⟨(c7_revoke_behaviour sMintA "bob" "shld" "alice" reachable_sMintA).1 (by decide),
   (c7_revoke_behaviour sMintA "bob" "shld" "alice" reachable_sMintA).2.2
     (Token.mk "alice" mdA) (by decide)⟩

/-- C8: get_all_proposals returns one view per proposal ever created, with ids
0, 1, ..., next_proposal_id - 1 in exactly that ascending order, which is the
order the create_proposal calls were made. -/
theorem c8_get_all_proposals_ordered (s : SHLDContract) (hreach : Reachable s) :
    (get_all_proposals s).map ProposalView.id = List.range s.next_proposal_id := by
  obtain ⟨hkeys, hids⟩ := proposalsInv_reachable s hreach
  rw [← hkeys]
  unfold get_all_proposals
  rw [List.map_map]
  apply List.map_congr_left
  intro kv hkv
  show (kv.2.to_json_value).id = kv.1
  rw [show kv.2.to_json_value.id = kv.2.id from rfl]
  exact hids kv hkv

/-- C8 witness: after one creation the listing is exactly [0]. -/
theorem c8_get_all_proposals_ordered_witness :
    (get_all_proposals sProp).map ProposalView.id = List.range sProp.next_proposal_id :=
  c8_get_all_proposals_ordered sProp reachable_sProp

/-- C9: transfer always fails with NonTransferableError and the transaction
leaves every token, the holder set and all proposals unchanged: the state
after the call is the state before it. -/
theorem c9_transfer_always_fails (s : SHLDContract) (f t : AccountId) :
    transfer s f t = Except.error GovError.NonTransferableError ∧
    applyOp s (Op.opTransfer f t) = s :=
  ⟨rfl, rfl⟩

/-- C10: in every reachable state, an account is in token_owners exactly when
the token map holds a token for it; hence is_token_owner agrees with
token_metadata being present, and the holder set size (the quorum denominator
read by vote) equals the number of live tokens. -/
theorem c10_owner_token_sync (s : SHLDContract) (hreach : Reachable s) :
    (∀ a, a ∈ s.token_owners ↔ (mapLookup s.tokens a).isSome = true) ∧
    (∀ a, is_token_owner s a = true ↔ (token_metadata s a).isSome = true) ∧
    s.token_owners.length = s.tokens.length := by
  obtain ⟨hiff, hnd, hknd, hlen⟩ := stateInv_reachable s hreach
  refine ⟨hiff, ?_, hlen⟩
  intro a
  simp [is_token_owner, token_metadata, hiff a]

/-- C10 witness: the sync invariant evaluated on the one-holder state. -/
theorem c10_owner_token_sync_witness :
    (is_token_owner sMintA "alice" = true ↔ (token_metadata sMintA "alice").isSome = true) ∧
    sMintA.token_owners.length = sMintA.tokens.length :=
  ⟨(c10_owner_token_sync sMintA reachable_sMintA).2.1 "alice",
   (c10_owner_token_sync sMintA reachable_sMintA).2.2⟩

/-- C3 counterexample: the claim as stated says every later vote call on a
resolved proposal fails with ProposalNotActiveError.  On the code the holder
guard runs first: bob holds no token, proposal 0 of sVoted1 is Passed, and
the vote call by bob fails with NotTokenHolderError, a different error. -/
theorem c3_error_precedence_counterexample :
    mapLookup sVoted1.proposals 0 = some pVoted1 ∧
    pVoted1.status = ProposalStatus.Passed ∧
    is_token_owner sVoted1 "bob" = false ∧
    vote sVoted1 "bob" 0 true = Except.error GovError.NotTokenHolderError ∧
    GovError.NotTokenHolderError ≠ GovError.ProposalNotActiveError :=
  ⟨by decide, by decide, by decide, rfl, by decide⟩
